import Mathlib

/-!
Verification of the EduWeave study-copilot core (text chunking, vector store,
RAG answer post-processing, generation helpers) against its natural-language
specification.  The Python sources under `eduweave/` are shallowly embedded:
strings are `List Char`, machine integers are `Nat`/`Int`, fallible operations
return `Except`, and calls to external services (embedding model, generation
model, faiss index search, `json.loads`, `textwrap.shorten`) are abstracted as
function parameters.  The embedding models text at the ASCII subset of
Python's character classes (`\s`, `\w`, `str.lower`, `str.splitlines`) --
all concrete inputs appearing below are ASCII.
-/

set_option maxRecDepth 100000

namespace EduWeave

/-! ### Character classes (ASCII model of Python `\s`, `\w`, `str.lower`) -/

/-- Python whitespace (`\s`), restricted to ASCII. -/
def pyIsSpace (c : Char) : Bool :=
  c = ' ' || c = '\t' || c = '\n' || c = '\r' || c = '\x0b' || c = '\x0c'

/-- Python word character (`\w`), restricted to ASCII. -/
def isWordChar (c : Char) : Bool :=
  c.isAlphanum || c = '_'

/-- Python `str.lower` on a single character, restricted to ASCII. -/
def pyLower (c : Char) : Char :=
  if 'A' ≤ c ∧ c ≤ 'Z' then Char.ofNat (c.toNat + 32) else c

/-- Python `str.strip()`: drop whitespace from both ends. -/
def pyStrip (l : List Char) : List Char :=
  (((l.dropWhile pyIsSpace).reverse.dropWhile pyIsSpace)).reverse

/-- One pass of `re.sub(r"\s+", " ", text)`: collapse every run of whitespace
to a single space.  `prevSpace` records whether the previously consumed
character was part of a whitespace run. -/
def collapseWsAux (prevSpace : Bool) : List Char → List Char
  | [] => []
  | c :: cs =>
    if pyIsSpace c then
      if prevSpace then collapseWsAux true cs
      else ' ' :: collapseWsAux true cs
    else c :: collapseWsAux false cs

/-- Embeds `re.sub(r"\s+", " ", text)` (source: `_normalize_whitespace`, first half). -/
def collapseWs (l : List Char) : List Char := collapseWsAux false l

/-- Embeds `_normalize_whitespace` from `text_processing.py`:
`re.sub(r"\s+", " ", text or "").strip()`. -/
def normalizeWhitespace (l : List Char) : List Char := pyStrip (collapseWs l)

/-- Python slice `l[a:b]` for non-negative bounds. -/
def pySlice (l : List Char) (a b : Nat) : List Char := (l.take b).drop a

/-- Embeds `w[i:i+len(sub)] == sub`: `sub` occurs in `w` at position `i`. -/
def occursAt (w sub : List Char) (i : Nat) : Bool := (w.drop i).take sub.length == sub

/-- Scan positions `n, n-1, ..., 0` for the highest occurrence of `sub`. -/
def pyRfindAux (w sub : List Char) : Nat → Option Nat
  | 0 => if occursAt w sub 0 then some 0 else none
  | i + 1 => if occursAt w sub (i + 1) then some (i + 1) else pyRfindAux w sub i

/-- Python `str.rfind`: highest index at which `sub` occurs in `w`
(`none` models the `-1` return). -/
def pyRfind (w sub : List Char) : Option Nat := pyRfindAux w sub w.length

/-! ### Basic lemmas about the string primitives -/

theorem length_dropWhile_le (p : Char → Bool) (l : List Char) :
    (l.dropWhile p).length ≤ l.length := by
  induction l with
  | nil => simp [List.dropWhile]
  | cons c cs ih =>
    by_cases h : p c
    · simp only [List.dropWhile, h]
      exact Nat.le_succ_of_le ih
    · simp [List.dropWhile, h]

theorem pyStrip_length_le (l : List Char) : (pyStrip l).length ≤ l.length := by
  unfold pyStrip
  calc ((l.dropWhile pyIsSpace).reverse.dropWhile pyIsSpace).reverse.length
      = ((l.dropWhile pyIsSpace).reverse.dropWhile pyIsSpace).length := List.length_reverse _
    _ ≤ (l.dropWhile pyIsSpace).reverse.length := length_dropWhile_le _ _
    _ = (l.dropWhile pyIsSpace).length := List.length_reverse _
    _ ≤ l.length := length_dropWhile_le _ _

theorem dropWhile_dropWhile (p : Char → Bool) (l : List Char) :
    (l.dropWhile p).dropWhile p = l.dropWhile p := by
  induction l with
  | nil => simp [List.dropWhile]
  | cons c cs ih =>
    by_cases h : p c
    · simpa [List.dropWhile, h] using ih
    · simp [List.dropWhile, h]

theorem dropWhile_eq_self_of_head (p : Char → Bool) (c : Char) (cs : List Char)
    (h : p c = false) : (c :: cs).dropWhile p = c :: cs := by
  simp [List.dropWhile, h]

/-- A nonempty prefix of a `dropWhile`-stable list is itself `dropWhile`-stable. -/
theorem dropWhile_eq_self_of_prefix (p : Char → Bool) (u v : List Char)
    (hu : u.dropWhile p = u) (hpre : ∃ t, v ++ t = u) : v.dropWhile p = v := by
  cases v with
  | nil => simp [List.dropWhile]
  | cons c cs =>
    obtain ⟨t, ht⟩ := hpre
    cases u with
    | nil => simp at ht
    | cons d ds =>
      have hcd : c = d ∧ cs ++ t = ds := by
        constructor
        · exact (List.cons.injEq c (cs ++ t) d ds ▸ ht).1
        · exact (List.cons.injEq c (cs ++ t) d ds ▸ ht).2
      obtain ⟨hcd1, _⟩ := hcd
      subst hcd1
      by_cases h : p c = true
      · exfalso
        simp only [List.dropWhile, h, if_true] at hu
        have hlen := length_dropWhile_le p ds
        rw [hu] at hlen
        simp at hlen
      · exact dropWhile_eq_self_of_head p c cs (by simpa using h)

theorem pyStrip_idem (l : List Char) : pyStrip (pyStrip l) = pyStrip l := by
  set u := l.dropWhile pyIsSpace with hu
  have hustable : u.dropWhile pyIsSpace = u := dropWhile_dropWhile pyIsSpace l
  set w := u.reverse.dropWhile pyIsSpace with hw
  have hwstable : w.dropWhile pyIsSpace = w := by
    rw [hw]; exact dropWhile_dropWhile pyIsSpace u.reverse
  -- pyStrip l = w.reverse; its reverse-side is stable by hwstable, and its
  -- front is a prefix of the left-stripped list u, hence also stable.
  have hpre : ∃ t, w.reverse ++ t = u := by
    obtain ⟨t, ht⟩ : ∃ t, t ++ w = u.reverse := by
      refine ⟨u.reverse.takeWhile pyIsSpace, ?_⟩
      rw [hw]; exact List.takeWhile_append_dropWhile pyIsSpace u.reverse
    exact ⟨t.reverse, by rw [← List.reverse_append, ht, List.reverse_reverse]⟩
  have hfront : w.reverse.dropWhile pyIsSpace = w.reverse :=
    dropWhile_eq_self_of_prefix pyIsSpace u w.reverse hustable hpre
  show pyStrip w.reverse = w.reverse
  unfold pyStrip
  rw [hfront, List.reverse_reverse, hwstable]

theorem pyStrip_normalize (l : List Char) :
    pyStrip (normalizeWhitespace l) = normalizeWhitespace l := by
  unfold normalizeWhitespace
  exact pyStrip_idem _

theorem pySlice_length_le (l : List Char) (a b : Nat) :
    (pySlice l a b).length ≤ b - a := by
  unfold pySlice
  rw [List.length_drop, List.length_take]
  omega

/-- An occurrence of a nonempty `sub` fits inside `w`. -/
theorem occursAt_le (w sub : List Char) (i : Nat) (hsub : sub ≠ [])
    (h : occursAt w sub i = true) : i + sub.length ≤ w.length := by
  unfold occursAt at h
  have heq : (w.drop i).take sub.length = sub := beq_iff_eq.mp h
  have hlen : ((w.drop i).take sub.length).length = sub.length := by rw [heq]
  rw [List.length_take, List.length_drop] at hlen
  have hmin := Nat.min_le_right sub.length (w.length - i)
  rw [hlen] at hmin
  have hpos : 0 < sub.length := List.length_pos.mpr hsub
  omega

theorem pyRfindAux_le (w sub : List Char) (hsub : sub ≠ []) :
    ∀ n i, pyRfindAux w sub n = some i → i + sub.length ≤ w.length := by
  intro n
  induction n with
  | zero =>
    intro i h
    unfold pyRfindAux at h
    by_cases hc : occursAt w sub 0
    · simp [hc] at h
      subst h
      simpa using occursAt_le w sub 0 hsub hc
    · simp [hc] at h
  | succ n ih =>
    intro i h
    unfold pyRfindAux at h
    by_cases hc : occursAt w sub (n + 1)
    · simp [hc] at h
      subst h
      exact occursAt_le w sub _ hsub hc
    · simp [hc] at h
      exact ih i h

theorem pyRfind_le (w sub : List Char) (hsub : sub ≠ []) (i : Nat)
    (h : pyRfind w sub = some i) : i + sub.length ≤ w.length :=
  pyRfindAux_le w sub hsub w.length i h

/-! ### The chunker (`chunk_text` in `text_processing.py`)

The boundary-adjustment loop compares an integer against the Python float
`chunk_size * 0.6`.  For every integer `chunk_size` below `2 ^ 50` that
comparison agrees exactly with the rational comparison
`5 * k ≥ 3 * chunk_size` (when `5 ∣ chunk_size` the product
`chunk_size * 0.6` rounds to the exact integer `3 * chunk_size / 5`, and
otherwise the rounding error is far too small to cross an integer), so the
embedding uses the rational form. -/

/-- The default separator tuple of `chunk_text`. -/
def defaultSeparators : List (List Char) :=
  ["\n\n".data, "\n".data, ". ".data, " ".data, "".data]

/-- The `for sep in separators` boundary-adjustment loop inside `chunk_text`:
skip empty separators, find the last occurrence (`rfind`) of each separator
in the window, and cut at `start + idx + len(sep.strip())` for the first
separator whose cut point is at least 60% of `chunk_size` past `start`;
otherwise keep the raw window edge `end_`. -/
def adjustEnd (chunk_size start end_ : Nat) (window : List Char) :
    List (List Char) → Nat
  | [] => end_
  | sep :: rest =>
    if sep = [] then adjustEnd chunk_size start end_ window rest
    else
      match pyRfind window sep with
      | none => adjustEnd chunk_size start end_ window rest
      | some idx =>
        if 5 * (idx + (pyStrip sep).length) ≥ 3 * chunk_size then
          start + idx + (pyStrip sep).length
        else adjustEnd chunk_size start end_ window rest

/-- Embeds `end = min(start + chunk_size, length)` for the current iteration. -/
def windowEnd (norm : List Char) (chunk_size start : Nat) : Nat :=
  min (start + chunk_size) norm.length

/-- The adjusted end of the chunk starting at `start`
(`adjusted_end` in the source, after the separator loop). -/
def adjustedEndAt (norm : List Char) (chunk_size start : Nat)
    (seps : List (List Char)) : Nat :=
  adjustEnd chunk_size start (windowEnd norm chunk_size start)
    (pySlice norm start (windowEnd norm chunk_size start)) seps

/-- Embeds `chunk = normalized[start:adjusted_end].strip()`. -/
def chunkAt (norm : List Char) (chunk_size start : Nat)
    (seps : List (List Char)) : List Char :=
  pyStrip (pySlice norm start (adjustedEndAt norm chunk_size start seps))

/-- Embeds `if chunk: chunks.append(chunk)`. -/
def emitChunk (c : List Char) (rest : List (List Char)) : List (List Char) :=
  if c = [] then rest else c :: rest

/-- The `while start < length` loop of `chunk_text`, instrumented with fuel:
the source loop has no progress guarantee (its guard after advancing is
`start >= length`, which never fires), so the embedding returns `none` when
the fuel runs out before the loop exits. -/
def chunkLoop (norm : List Char) (chunk_size chunk_overlap : Nat)
    (seps : List (List Char)) : Nat → Nat → Option (List (List Char))
  | 0, _ => none
  | fuel + 1, start =>
    if start < norm.length then
      if norm.length ≤ adjustedEndAt norm chunk_size start seps then
        some (emitChunk (chunkAt norm chunk_size start seps) [])
      else if norm.length ≤ adjustedEndAt norm chunk_size start seps - chunk_overlap then
        some (emitChunk (chunkAt norm chunk_size start seps) [])
      else
        (chunkLoop norm chunk_size chunk_overlap seps fuel
            (adjustedEndAt norm chunk_size start seps - chunk_overlap)).map
          (emitChunk (chunkAt norm chunk_size start seps))
    else some []

/-- Embeds `chunk_text` from `text_processing.py`.  Parameters are `Nat`:
Python clamps `chunk_size` to at least 200 and `chunk_overlap` into
`[0, chunk_size - 1]`, and the `max(..., 0)` clamps coincide with truncated
`Nat` subtraction.  `none` means the source loop did not terminate within
`fuel` iterations. -/
def chunk_text (text : List Char) (chunk_size chunk_overlap : Nat)
    (seps : List (List Char)) (fuel : Nat) : Option (List (List Char)) :=
  if normalizeWhitespace text = [] then some []
  else
    chunkLoop (normalizeWhitespace text) (max chunk_size 200)
      (min chunk_overlap (max chunk_size 200 - 1)) seps fuel 0

/-! ### Bounds on the boundary adjustment -/

theorem adjustEnd_le (chunk_size start end_ : Nat) (window : List Char)
    (seps : List (List Char)) (hw : window.length ≤ chunk_size)
    (he : end_ ≤ start + chunk_size) :
    adjustEnd chunk_size start end_ window seps ≤ start + chunk_size := by
  induction seps with
  | nil => exact he
  | cons sep rest ih =>
    unfold adjustEnd
    by_cases hsep : sep = []
    · simp only [hsep, if_true]
      exact ih
    · simp only [hsep, if_false]
      cases hfind : pyRfind window sep with
      | none => exact ih
      | some idx =>
        by_cases hq : 5 * (idx + (pyStrip sep).length) ≥ 3 * chunk_size
        · simp only [hq, if_true]
          have h1 := pyRfind_le window sep hsep idx hfind
          have h2 := pyStrip_length_le sep
          have h3 : sep.length ≥ 1 := by
            cases sep with
            | nil => exact absurd rfl hsep
            | cons a l => simp
          omega
        · simp only [hq, if_false]
          exact ih

theorem adjustedEndAt_le (norm : List Char) (chunk_size start : Nat)
    (seps : List (List Char)) :
    adjustedEndAt norm chunk_size start seps ≤ start + chunk_size := by
  unfold adjustedEndAt
  apply adjustEnd_le
  · unfold windowEnd pySlice
    rw [List.length_drop, List.length_take]
    omega
  · unfold windowEnd
    omega

/-- If every possible cut point falls short of the 60% threshold (in
particular whenever `5 * window.length < 3 * chunk_size`), the raw edge is
kept. -/
theorem adjustEnd_small (chunk_size start end_ : Nat) (window : List Char)
    (seps : List (List Char)) (h : 5 * window.length < 3 * chunk_size) :
    adjustEnd chunk_size start end_ window seps = end_ := by
  induction seps with
  | nil => rfl
  | cons sep rest ih =>
    unfold adjustEnd
    by_cases hsep : sep = []
    · simp only [hsep, if_true]
      exact ih
    · simp only [hsep, if_false]
      cases hfind : pyRfind window sep with
      | none => exact ih
      | some idx =>
        have h1 := pyRfind_le window sep hsep idx hfind
        have h2 := pyStrip_length_le sep
        have hq : ¬ 5 * (idx + (pyStrip sep).length) ≥ 3 * chunk_size := by omega
        simp only [hq, if_false]
        exact ih

/-! ### Loop-level lemmas -/

/-- A state of the chunking loop from which the cursor does not advance:
the loop body maps it back to itself, so no amount of fuel suffices. -/
theorem chunkLoop_stuck (norm : List Char) (chunk_size chunk_overlap start : Nat)
    (seps : List (List Char))
    (h1 : start < norm.length)
    (h2 : adjustedEndAt norm chunk_size start seps < norm.length)
    (h3 : adjustedEndAt norm chunk_size start seps - chunk_overlap = start) :
    ∀ fuel, chunkLoop norm chunk_size chunk_overlap seps fuel start = none := by
  intro fuel
  induction fuel with
  | zero => rfl
  | succ f ih =>
    unfold chunkLoop
    rw [if_pos h1, if_neg (by omega), if_neg (by omega), h3, ih]
    rfl

theorem emitChunk_mem (c : List Char) (rest : List (List Char)) (x : List Char)
    (hx : x ∈ emitChunk c rest) : (x = c ∧ c ≠ []) ∨ x ∈ rest := by
  unfold emitChunk at hx
  by_cases hc : c = []
  · rw [if_pos hc] at hx
    exact Or.inr hx
  · rw [if_neg hc] at hx
    rcases List.mem_cons.mp hx with h1 | h1
    · exact Or.inl ⟨h1, hc⟩
    · exact Or.inr h1

theorem chunkAt_length_le (norm : List Char) (chunk_size start : Nat)
    (seps : List (List Char)) :
    (chunkAt norm chunk_size start seps).length ≤ chunk_size := by
  unfold chunkAt
  have h1 := pyStrip_length_le (pySlice norm start (adjustedEndAt norm chunk_size start seps))
  have h2 := pySlice_length_le norm start (adjustedEndAt norm chunk_size start seps)
  have h3 := adjustedEndAt_le norm chunk_size start seps
  omega

/-- Every chunk the loop emits is non-empty and at most `chunk_size` long. -/
theorem chunkLoop_bounds (norm : List Char) (chunk_size chunk_overlap : Nat)
    (seps : List (List Char)) :
    ∀ fuel start l, chunkLoop norm chunk_size chunk_overlap seps fuel start = some l →
      ∀ c ∈ l, c ≠ [] ∧ c.length ≤ chunk_size := by
  intro fuel
  induction fuel with
  | zero => intro start l h; exact absurd h (by simp [chunkLoop])
  | succ f ih =>
    intro start l h c hc
    unfold chunkLoop at h
    by_cases hs : start < norm.length
    · rw [if_pos hs] at h
      by_cases hb1 : norm.length ≤ adjustedEndAt norm chunk_size start seps
      · rw [if_pos hb1] at h
        have hl : l = emitChunk (chunkAt norm chunk_size start seps) [] := by
          injection h with h; exact h.symm
        rw [hl] at hc
        rcases emitChunk_mem _ _ _ hc with ⟨hceq, hne⟩ | habs
        · subst hceq
          exact ⟨hne, chunkAt_length_le norm chunk_size start seps⟩
        · simp at habs
      · rw [if_neg hb1] at h
        by_cases hb2 : norm.length ≤ adjustedEndAt norm chunk_size start seps - chunk_overlap
        · rw [if_pos hb2] at h
          have hl : l = emitChunk (chunkAt norm chunk_size start seps) [] := by
            injection h with h; exact h.symm
          rw [hl] at hc
          rcases emitChunk_mem _ _ _ hc with ⟨hceq, hne⟩ | habs
          · subst hceq
            exact ⟨hne, chunkAt_length_le norm chunk_size start seps⟩
          · simp at habs
        · rw [if_neg hb2] at h
          cases hrec : chunkLoop norm chunk_size chunk_overlap seps f
              (adjustedEndAt norm chunk_size start seps - chunk_overlap) with
          | none => rw [hrec] at h; simp at h
          | some l2 =>
            rw [hrec] at h
            rw [show (some l2).map (emitChunk (chunkAt norm chunk_size start seps)) = some (emitChunk (chunkAt norm chunk_size start seps) l2) from rfl] at h
            have hl : l = emitChunk (chunkAt norm chunk_size start seps) l2 := by
              injection h with h; exact h.symm
            rw [hl] at hc
            rcases emitChunk_mem _ _ _ hc with ⟨hceq, hne⟩ | hmem
            · subst hceq
              exact ⟨hne, chunkAt_length_le norm chunk_size start seps⟩
            · exact ih _ l2 hrec c hmem
    · rw [if_neg hs] at h
      have hl : l = [] := by injection h with h; exact h.symm
      rw [hl] at hc
      simp at hc

/-- When the whole normalized text is shorter than 60% of the chunk size, the
first iteration consumes everything and emits the normalized text itself. -/
theorem chunkLoop_single (norm : List Char) (chunk_size chunk_overlap : Nat)
    (seps : List (List Char)) (f : Nat)
    (hnil : norm ≠ []) (hsmall : 5 * norm.length < 3 * chunk_size)
    (hstable : pyStrip norm = norm) :
    chunkLoop norm chunk_size chunk_overlap seps (f + 1) 0 = some [norm] := by
  have hpos : 0 < norm.length := List.length_pos.mpr hnil
  have hlt : norm.length < chunk_size := by omega
  have hwe : windowEnd norm chunk_size 0 = norm.length := by
    unfold windowEnd; omega
  have hwin : pySlice norm 0 (windowEnd norm chunk_size 0) = norm := by
    rw [hwe]
    unfold pySlice
    rw [List.take_length, List.drop_zero]
  have hadj : adjustedEndAt norm chunk_size 0 seps = norm.length := by
    unfold adjustedEndAt
    rw [hwin, adjustEnd_small _ _ _ _ _ hsmall, hwe]
  have hchunk : chunkAt norm chunk_size 0 seps = norm := by
    unfold chunkAt
    rw [hadj]
    unfold pySlice
    rw [List.take_length, List.drop_zero, hstable]
  unfold chunkLoop
  rw [if_pos hpos, if_pos (by rw [hadj]), hchunk]
  unfold emitChunk
  rw [if_neg hnil]

/-! ### Spec-side reading of the boundary adjustment (for C3)

`lastOccurrence` and `adjustEndSpec` follow the specification's words: search
the separators in priority order and, for the first separator whose *last
occurrence* inside the window puts the cut point at least `0.6 * chunk_size`
past `start`, cut there; otherwise keep the raw window edge. -/

/-- The last (largest) position at which `sub` occurs in `w`, stated
declaratively as the last element of the list of all occurrence positions. -/
def lastOccurrence (w sub : List Char) : Option Nat :=
  (((List.range (w.length + 1)).filter (fun i => occursAt w sub i))).getLast?

/-- The cut point contributed by one separator, per the specification: its
last occurrence in the window, accepted only when the 60% threshold holds. -/
def sepCutPoint (chunk_size start : Nat) (window sep : List Char) : Option Nat :=
  if sep = [] then none
  else
    match lastOccurrence window sep with
    | none => none
    | some idx =>
      if 5 * (idx + (pyStrip sep).length) ≥ 3 * chunk_size then
        some (start + idx + (pyStrip sep).length)
      else none

/-- Spec-side adjusted end: the cut point of the first qualifying separator
in priority order, or the raw window edge if no separator qualifies. -/
def adjustEndSpec (chunk_size start end_ : Nat) (window : List Char)
    (seps : List (List Char)) : Nat :=
  match seps.findSome? (sepCutPoint chunk_size start window) with
  | some a => a
  | none => end_

theorem pyRfindAux_eq_lastOccurrence (w sub : List Char) :
    ∀ n, pyRfindAux w sub n =
      (((List.range (n + 1)).filter (fun i => occursAt w sub i))).getLast? := by
  intro n
  induction n with
  | zero =>
    by_cases h : occursAt w sub 0
    · simp [pyRfindAux, h, List.range_succ, List.filter]
    · simp [pyRfindAux, h, List.range_succ, List.filter]
  | succ n ih =>
    have hr : List.range (n + 1 + 1) = List.range (n + 1) ++ [n + 1] :=
      List.range_succ (n + 1)
    by_cases h : occursAt w sub (n + 1)
    · rw [pyRfindAux, if_pos h, hr, List.filter_append]
      have : List.filter (fun i => occursAt w sub i) [n + 1] = [n + 1] := by
        simp [List.filter, h]
      rw [this, List.getLast?_concat]
    · rw [pyRfindAux, if_neg h, hr, List.filter_append]
      have : List.filter (fun i => occursAt w sub i) [n + 1] = [] := by
        simp [List.filter, h]
      rw [this, List.append_nil, ih]

theorem pyRfind_eq_lastOccurrence (w sub : List Char) :
    pyRfind w sub = lastOccurrence w sub :=
  pyRfindAux_eq_lastOccurrence w sub w.length

/-- C3: within each candidate window, `chunk_text`'s boundary adjustment
searches the separators in priority order and, for the first separator whose
last occurrence in the window satisfies
`occurrence_position - start ≥ 0.6 * chunk_size`, cuts at that occurrence
(`start + idx + len(sep.strip())`) instead of the raw window edge; if no
separator qualifies it keeps the raw edge.  Stated as equality between the
source's loop (`adjustEnd`, applied by `chunk_text` via `adjustedEndAt` to
the window `normalized[start : min(start+chunk_size, length)]`) and the
declarative spec-side reading `adjustEndSpec`. -/
theorem adjustEnd_eq_spec (chunk_size start end_ : Nat) (window : List Char)
    (seps : List (List Char)) :
    adjustEnd chunk_size start end_ window seps =
      adjustEndSpec chunk_size start end_ window seps := by
  induction seps with
  | nil => rfl
  | cons sep rest ih =>
    by_cases hsep : sep = []
    · have h1 : adjustEnd chunk_size start end_ window (sep :: rest) =
          adjustEnd chunk_size start end_ window rest := by
        simp [adjustEnd, hsep]
      have h2 : adjustEndSpec chunk_size start end_ window (sep :: rest) =
          adjustEndSpec chunk_size start end_ window rest := by
        simp [adjustEndSpec, List.findSome?_cons, sepCutPoint, hsep]
      rw [h1, h2, ih]
    · cases hlo : lastOccurrence window sep with
      | none =>
        have hpf : pyRfind window sep = none := by
          rw [pyRfind_eq_lastOccurrence, hlo]
        have h1 : adjustEnd chunk_size start end_ window (sep :: rest) =
            adjustEnd chunk_size start end_ window rest := by
          simp [adjustEnd, hsep, hpf]
        have h2 : adjustEndSpec chunk_size start end_ window (sep :: rest) =
            adjustEndSpec chunk_size start end_ window rest := by
          simp [adjustEndSpec, List.findSome?_cons, sepCutPoint, hsep, hlo]
        rw [h1, h2, ih]
      | some idx =>
        have hpf : pyRfind window sep = some idx := by
          rw [pyRfind_eq_lastOccurrence, hlo]
        by_cases hq : 5 * (idx + (pyStrip sep).length) ≥ 3 * chunk_size
        · have h1 : adjustEnd chunk_size start end_ window (sep :: rest) =
              start + idx + (pyStrip sep).length := by
            simp [adjustEnd, hsep, hpf, hq]
          have h2 : adjustEndSpec chunk_size start end_ window (sep :: rest) =
              start + idx + (pyStrip sep).length := by
            simp [adjustEndSpec, List.findSome?_cons, sepCutPoint, hsep, hlo, hq]
          rw [h1, h2]
        · have h1 : adjustEnd chunk_size start end_ window (sep :: rest) =
              adjustEnd chunk_size start end_ window rest := by
            simp [adjustEnd, hsep, hpf, hq]
          have h2 : adjustEndSpec chunk_size start end_ window (sep :: rest) =
              adjustEndSpec chunk_size start end_ window rest := by
            simp [adjustEndSpec, List.findSome?_cons, sepCutPoint, hsep, hlo, hq]
          rw [h1, h2, ih]

/-! ### Claims C1, C2, C4 about `chunk_text` -/

/-- Normalized input on which the chunking loop never advances:
119 letters, a sentence boundary `". "` whose cut point (120) is exactly 60%
of the clamped chunk size (200), and a short tail.  With the default overlap
150, the next cursor is `max(120 - 150, 0) = 0` again. -/
def c1text : List Char := List.replicate 119 'a' ++ '.' :: ' ' :: List.replicate 9 'b'

/-- Input for C4: 700 normalized characters (shorter than `chunk_size = 800`)
with a sentence boundary at position 650, past the 60% threshold (480). -/
def c4text : List Char := List.replicate 650 'a' ++ '.' :: ' ' :: List.replicate 48 'b'

/-- C1: the claim says `chunk_text` terminates for every input and every
`chunk_size`/`chunk_overlap` pair because the loop stops when the new `start`
would not progress.  The code has no such guard (it only checks
`start >= length`): on `c1text` with `chunk_size = 200` and the default
overlap `150`, the cursor stays at 0 forever, so no amount of fuel makes the
embedded loop return. -/
theorem chunk_text_diverges_c1 :
    ∀ fuel, chunk_text c1text 200 150 defaultSeparators fuel = none := by
  intro fuel
  have hnorm : normalizeWhitespace c1text = c1text := by decide
  unfold chunk_text
  rw [hnorm, if_neg (by decide), show max 200 200 = 200 from by decide,
    show min 150 (200 - 1) = 150 from by decide]
  exact chunkLoop_stuck c1text 200 150 0 defaultSeparators (by decide) (by decide)
    (by decide) fuel

/-- C2 counterexample: with `chunk_size = 50` and `chunk_overlap = 10 < 50`,
the clamp to the 200 floor makes `chunk_text` return a 200-character chunk,
violating the claimed bound `length ≤ chunk_size = 50`. -/
theorem chunk_text_clamp_counterexample_c2 :
    10 < 50 ∧
    chunk_text (List.replicate 300 'a') 50 10 defaultSeparators 10 =
      some [List.replicate 200 'a', List.replicate 110 'a'] ∧
    ¬ (List.replicate 200 'a').length ≤ 50 := by
  refine ⟨by decide, by decide, by decide⟩

/-- C2 (amended): whenever `chunk_text` returns, every returned chunk is
non-empty and at most `max chunk_size 200` long -- the *clamped* chunk size,
which equals `chunk_size` whenever `chunk_size ≥ 200`; and the
natural-boundary adjustment never moves the cut past `start + chunk_size`. -/
theorem chunk_text_bounds_c2 :
    (∀ text chunk_size chunk_overlap seps fuel l c, chunk_overlap < chunk_size →
        chunk_text text chunk_size chunk_overlap seps fuel = some l → c ∈ l →
        c ≠ [] ∧ c.length ≤ max chunk_size 200)
    ∧ (∀ norm chunk_size start seps,
        adjustedEndAt norm chunk_size start seps ≤ start + chunk_size) := by
  constructor
  · intro text cs co seps fuel l c _hco h hc
    unfold chunk_text at h
    by_cases hn : normalizeWhitespace text = []
    · rw [if_pos hn] at h
      have hl : l = [] := by injection h with h; exact h.symm
      subst hl; simp at hc
    · rw [if_neg hn] at h
      exact chunkLoop_bounds _ _ _ _ fuel 0 l h c hc
  · exact fun norm cs start seps => adjustedEndAt_le norm cs start seps

theorem chunk_text_bounds_c2_witness :
    "hello".data ≠ [] ∧ "hello".data.length ≤ max 800 200 :=
  chunk_text_bounds_c2.1 ("hello".data) 800 150 defaultSeparators 5 ["hello".data]
    "hello".data (by decide) (by decide) (by decide)

set_option maxHeartbeats 4000000 in
/-- C4 counterexample: the claim says any text whose normalized length is
positive and below `chunk_size` yields exactly one chunk.  `c4text` is 700
characters long (below `chunk_size = 800`), yet the qualifying `". "`
boundary at position 650 splits it into two chunks. -/
theorem chunk_text_short_text_counterexample_c4 :
    0 < (normalizeWhitespace c4text).length ∧
    (normalizeWhitespace c4text).length < 800 ∧
    chunk_text c4text 800 150 defaultSeparators 10 =
      some [List.replicate 650 'a' ++ ['.'],
        List.replicate 149 'a' ++ '.' :: ' ' :: List.replicate 48 'b'] := by
  refine ⟨by decide, by decide, by decide⟩

/-- C4 (amended): empty or whitespace-only input yields the empty chunk list
with no error; and when the normalized length is positive and below 60% of
the clamped chunk size (so that no separator occurrence can reach the
adjustment threshold), `chunk_text` returns exactly one chunk -- the
normalized text itself. -/
theorem chunk_text_edge_cases_c4 :
    ∀ text chunk_size chunk_overlap seps fuel f,
      (normalizeWhitespace text = [] →
        chunk_text text chunk_size chunk_overlap seps fuel = some [])
      ∧ (0 < (normalizeWhitespace text).length →
          5 * (normalizeWhitespace text).length < 3 * max chunk_size 200 →
          chunk_text text chunk_size chunk_overlap seps (f + 1) =
            some [normalizeWhitespace text]) := by
  intro text cs co seps fuel f
  constructor
  · intro h
    unfold chunk_text
    rw [if_pos h]
  · intro hpos hsmall
    have hn : normalizeWhitespace text ≠ [] := by
      intro hx; rw [hx] at hpos; simp at hpos
    unfold chunk_text
    rw [if_neg hn]
    exact chunkLoop_single _ _ _ _ f hn hsmall (pyStrip_normalize text)

theorem chunk_text_edge_cases_c4_witness :
    chunk_text ("  ".data) 800 150 defaultSeparators 5 = some [] ∧
    chunk_text ("hi".data) 800 150 defaultSeparators 5 = some ["hi".data] :=
  ⟨(chunk_text_edge_cases_c4 ("  ".data) 800 150 defaultSeparators 5 4).1 (by decide),
   by
     have h := (chunk_text_edge_cases_c4 ("hi".data) 800 150 defaultSeparators 5 4).2
       (by decide) (by decide)
     rw [show normalizeWhitespace ("hi".data) = "hi".data from by decide] at h
     exact h⟩

/-! ### The answer post-processor (`answer_question` in `rag.py`, lines 78-98)

The marker stage is `re.split(r"(?i)\banswer\s*:\s*", raw_answer)` followed by
`parts[-1].strip() if len(parts) > 1 else raw_answer.strip()`. -/

/-- Case-insensitive literal-prefix consumption: if `s` starts with `pat`
up to `str.lower`, return the remainder. -/
def dropCaseInsens : List Char → List Char → Option (List Char)
  | [], s => some s
  | _ :: _, [] => none
  | p :: ps, c :: cs => if pyLower c = pyLower p then dropCaseInsens ps cs else none

/-- The literal `answer` of the marker pattern, as an explicit character
list. -/
def answerPat : List Char := ['a', 'n', 's', 'w', 'e', 'r']

/-- A match of `(?i)\banswer\s*:\s*` starting at the head of `cs`, returning
the remainder after the match.  `prevWord` says whether the character just
before `cs` is a word character; since the pattern starts with the word
character `a`, the `\b` boundary holds exactly when `prevWord` is false.
The greedy `\s*` runs are `dropWhile` (no backtracking can help, since `\s`
never matches `:`). -/
def matchAnswerMarker (prevWord : Bool) (cs : List Char) : Option (List Char) :=
  if prevWord then none
  else
    match dropCaseInsens answerPat cs with
    | none => none
    | some rest =>
      match rest.dropWhile pyIsSpace with
      | c :: rest2 => if c = ':' then some (rest2.dropWhile pyIsSpace) else none
      | [] => none

/-- Prepend a character to the first piece of a split-in-progress. -/
def consHead (c : Char) : List (List Char) → List (List Char)
  | [] => [[c]]
  | p :: ps => (c :: p) :: ps

/-- Embeds `re.split(r"(?i)\banswer\s*:\s*", ·)`: scan left to right, cut at each
(non-overlapping) match, and continue after the consumed marker.  The fuel
only serves structural recursion; `fuel ≥ cs.length` is always enough since
every step consumes at least one character. -/
def splitMarkerFuel : Nat → Bool → List Char → List (List Char)
  | 0, _, cs => [cs]
  | fuel + 1, prevWord, cs =>
    match matchAnswerMarker prevWord cs with
    | some rem => [] :: splitMarkerFuel fuel false rem
    | none =>
      match cs with
      | [] => [[]]
      | c :: cs2 => consHead c (splitMarkerFuel fuel (isWordChar c) cs2)

/-- Embeds `re.split(r"(?i)\banswer\s*:\s*", raw)` with the correct `\b` context for
position 0 (no preceding character). -/
def pySplitAnswerMarker (prevWord : Bool) (cs : List Char) : List (List Char) :=
  splitMarkerFuel cs.length prevWord cs

/-- Embeds `parts[-1]` (the split always returns at least one part). -/
def lastPart (parts : List (List Char)) : List Char := (parts.getLast?).getD []

/-- Marker extraction (`rag.py` lines 79-80):
`parts[-1].strip() if len(parts) > 1 else raw_answer.strip()`. -/
def answer_body (raw : List Char) : List Char :=
  if (pySplitAnswerMarker false raw).length > 1 then
    pyStrip (lastPart (pySplitAnswerMarker false raw))
  else pyStrip raw

/-- Spec-side comparison definition for the marker stage: scan *every*
position of the text and return the remainder after the *last* position at
which the answer marker matches (`none` when the marker occurs nowhere). -/
def textAfterLastMarker : Bool → List Char → Option (List Char)
  | _, [] => none
  | prev, c :: cs =>
    match textAfterLastMarker (isWordChar c) cs with
    | some r => some r
    | none => matchAnswerMarker prev (c :: cs)

/-- Python `str.splitlines` (modeled for `\n`, `\r`, `\r\n`), before the
final-fragment correction. -/
def splitlinesAcc (acc : List Char) : List Char → List (List Char)
  | [] => [acc.reverse]
  | '\r' :: '\n' :: rest => acc.reverse :: splitlinesAcc [] rest
  | '\n' :: rest => acc.reverse :: splitlinesAcc [] rest
  | '\r' :: rest => acc.reverse :: splitlinesAcc [] rest
  | c :: rest => splitlinesAcc (c :: acc) rest

/-- Python `str.splitlines`: no trailing empty line when the string ends with
a line break, and `[]` on the empty string. -/
def pySplitlines (s : List Char) : List (List Char) :=
  if s = [] then []
  else
    match (splitlinesAcc [] s).reverse with
    | [] :: rest => rest.reverse
    | other => other.reverse

/-- Embeds `re.match(r"(?i)\s*(context|question)\s*:", line)` as a Boolean:
the line starts (after optional whitespace) with `context:`/`question:`
up to case and optional whitespace before the colon. -/
def matchesEchoLabel (line : List Char) : Bool :=
  labelColon ("context".data) (line.dropWhile pyIsSpace) ||
    labelColon ("question".data) (line.dropWhile pyIsSpace)
where
  labelColon (pat r : List Char) : Bool :=
    match dropCaseInsens pat r with
    | some rest =>
      match rest.dropWhile pyIsSpace with
      | ':' :: _ => true
      | _ => false
    | none => false

/-- Case-insensitive substring test (`re.search` of a literal with
`re.IGNORECASE`). -/
def containsCI (s pat : List Char) : Bool :=
  (List.range (s.length + 1)).any (fun i => (dropCaseInsens pat (s.drop i)).isSome)

/-- The system-prompt-echo filter of `rag.py` line 87. -/
def echoesSystemPrompt (line : List Char) : Bool :=
  containsCI line ("EduWeave".data) || containsCI line ("AI assistant".data) ||
    containsCI line ("Avoid speculation".data) ||
    containsCI line ("Keep responses concise".data)

/-- Echo stripping (`rag.py` lines 83-90): drop echoed `Context:`/`Question:`
lines and lines containing system-prompt fragments, then rejoin the
remaining lines with single spaces and strip. -/
def stripEchoLines (body : List Char) : List Char :=
  pyStrip (List.intercalate [' ']
    ((pySplitlines body).filter
      (fun line => !(matchesEchoLabel line) && !(echoesSystemPrompt line))))

/-- Is this character one of the sentence-ending characters `[.!?]`? -/
def isSentEnd : Option Char → Bool
  | some c => c = '.' || c = '!' || c = '?'
  | none => false

/-- Embeds `re.split(r"(?<=[.!?])\s+", ·)`: cut at each whitespace run that
immediately follows a sentence-ending character.  Fuel as in
`splitMarkerFuel`. -/
def sentSplitFuel : Nat → List Char → Option Char → List Char → List (List Char)
  | 0, acc, _, rest => [acc.reverse ++ rest]
  | _ + 1, acc, _, [] => [acc.reverse]
  | fuel + 1, acc, prev, c :: rest =>
    if pyIsSpace c && isSentEnd prev then
      acc.reverse :: sentSplitFuel fuel [] (some ' ') (rest.dropWhile pyIsSpace)
    else sentSplitFuel fuel (c :: acc) (some c) rest

def pySplitSentences (cleaned : List Char) : List (List Char) :=
  sentSplitFuel cleaned.length [] none cleaned

/-- Sentence capping (`rag.py` lines 93-94):
`" ".join(sentences[:7]).strip() if sentences else cleaned`. -/
def capSentences (cleaned : List Char) : List Char :=
  match pySplitSentences cleaned with
  | [] => cleaned
  | s => pyStrip (List.intercalate [' '] (s.take 7))

/-- Embeds `SYSTEM_PROMPT` from `rag.py`. -/
def SYSTEM_PROMPT : List Char :=
  ("You are EduWeave, an academic AI assistant.\nAnswer questions strictly with the provided context. Avoid speculation.\nKeep responses concise (one or two sentences) and directly address the question.\nIf the answer is missing, say you cannot find it in the supplied notes.").data

/-- The residual instructional phrase checked by the fallback
(`"if the answer is missing" in answer.lower()`). -/
def residualPhrase : List Char := "if the answer is missing".data

/-- The fixed fallback answer of `rag.py` line 98. -/
def fallbackAnswer : List Char := "I cannot find the answer in the supplied notes.".data

/-- Python `str.lower`, restricted to ASCII. -/
def lowerStr (s : List Char) : List Char := s.map pyLower

/-- Case-sensitive substring test (Python `in` on strings). -/
def containsSub (s pat : List Char) : Bool :=
  (List.range (s.length + 1)).any (fun i => (s.drop i).take pat.length == pat)

/-- The answer after marker extraction, echo stripping and sentence capping
(the value of `answer` at `rag.py` line 94). -/
def answerStage (raw : List Char) : List Char :=
  capSentences (stripEchoLines (answer_body raw))

/-- The full post-processing pipeline of `answer_question`
(`rag.py` lines 78-98), including the fallback policy. -/
def postprocessAnswer (raw : List Char) : List Char :=
  if answerStage raw = [] ∨ containsSub (lowerStr (answerStage raw)) residualPhrase = true
  then fallbackAnswer
  else answerStage raw

/-! ### C7: the split-based marker stage keeps the text after the last match -/

theorem dropCaseInsens_decomp : ∀ (pat s r : List Char), dropCaseInsens pat s = some r →
    ∃ pre, s = pre ++ r ∧ pre.map pyLower = pat.map pyLower := by
  intro pat
  induction pat with
  | nil =>
    intro s r h
    have hsr : s = r := by
      unfold dropCaseInsens at h
      injection h
    exact ⟨[], by simp [hsr], rfl⟩
  | cons p ps ih =>
    intro s r h
    cases s with
    | nil => exact absurd h (by simp [dropCaseInsens])
    | cons c cs =>
      unfold dropCaseInsens at h
      by_cases hc : pyLower c = pyLower p
      · rw [if_pos hc] at h
        obtain ⟨pre, hpre, hmap⟩ := ih cs r h
        exact ⟨c :: pre, by rw [List.cons_append, hpre], by simp [hmap, hc]⟩
      · rw [if_neg hc] at h
        exact absurd h (by simp)

theorem answerPat_map_lower : answerPat.map pyLower = answerPat := by decide

theorem marker_decomp (p : Bool) (cs rem : List Char)
    (h : matchAnswerMarker p cs = some rem) :
    p = false ∧ ∃ pre sp1 sp2, cs = pre ++ (sp1 ++ ':' :: (sp2 ++ rem)) ∧
      pre.map pyLower = answerPat ∧
      (∀ c ∈ sp1, pyIsSpace c = true) ∧ (∀ c ∈ sp2, pyIsSpace c = true) := by
  cases p with
  | true => simp [matchAnswerMarker] at h
  | false =>
    refine ⟨rfl, ?_⟩
    simp only [matchAnswerMarker, if_false, Bool.false_eq_true] at h
    cases hdc : dropCaseInsens answerPat cs with
    | none => simp [hdc] at h
    | some rest =>
      simp only [hdc] at h
      obtain ⟨pre, hs, hmap⟩ := dropCaseInsens_decomp answerPat cs rest hdc
      rw [answerPat_map_lower] at hmap
      cases hdw : rest.dropWhile pyIsSpace with
      | nil => simp [hdw] at h
      | cons c0 rest2 =>
        simp only [hdw] at h
        by_cases hc0 : c0 = ':'
        · rw [if_pos hc0] at h
          have hrem : rest2.dropWhile pyIsSpace = rem := by injection h
          subst hc0
          have h1 : rest.takeWhile pyIsSpace ++ rest.dropWhile pyIsSpace = rest :=
            List.takeWhile_append_dropWhile pyIsSpace rest
          have h2 : rest2.takeWhile pyIsSpace ++ rest2.dropWhile pyIsSpace = rest2 :=
            List.takeWhile_append_dropWhile pyIsSpace rest2
          refine ⟨pre, rest.takeWhile pyIsSpace, rest2.takeWhile pyIsSpace, ?_, hmap,
            fun c hc => List.mem_takeWhile_imp hc, fun c hc => List.mem_takeWhile_imp hc⟩
          rw [hs]
          congr 1
          rw [← hrem, h2, ← hdw, h1]
        · rw [if_neg hc0] at h
          exact absurd h (by simp)

theorem marker_prev_false (p : Bool) (cs rem : List Char)
    (h : matchAnswerMarker p cs = some rem) : p = false :=
  (marker_decomp p cs rem h).1

theorem answerPat_length : answerPat.length = 6 := by decide

theorem marker_rem_lt (p : Bool) (cs rem : List Char)
    (h : matchAnswerMarker p cs = some rem) : rem.length < cs.length := by
  obtain ⟨-, pre, sp1, sp2, hcs, hmap, -, -⟩ := marker_decomp p cs rem h
  have hpre : pre.length = 6 := by
    have := congrArg List.length hmap
    rw [List.length_map] at this
    rw [this, answerPat_length]
  rw [hcs]
  simp [List.length_append]
  omega

theorem marker_nil (p : Bool) : matchAnswerMarker p [] = none := by
  cases p <;> rfl

theorem pyLower_a : pyLower 'a' = 'a' := by decide

theorem marker_notA (p : Bool) (c : Char) (t : List Char) (hc : pyLower c ≠ 'a') :
    matchAnswerMarker p (c :: t) = none := by
  cases p with
  | true => rfl
  | false =>
    simp only [matchAnswerMarker, if_false, Bool.false_eq_true]
    have hdc : dropCaseInsens answerPat (c :: t) = none := by
      show (if pyLower c = pyLower 'a' then dropCaseInsens ['n', 's', 'w', 'e', 'r'] t
        else none) = none
      rw [pyLower_a, if_neg hc]
    rw [hdc]

theorem pyLower_ne_a_of_space (c : Char) (h : pyIsSpace c = true) : pyLower c ≠ 'a' := by
  simp only [pyIsSpace, Bool.or_eq_true, decide_eq_true_eq] at h
  rcases h with ((((h | h) | h) | h) | h) | h <;> subst h <;> decide

theorem isWordChar_false_of_space (c : Char) (h : pyIsSpace c = true) :
    isWordChar c = false := by
  simp only [pyIsSpace, Bool.or_eq_true, decide_eq_true_eq] at h
  rcases h with ((((h | h) | h) | h) | h) | h <;> subst h <;> decide

theorem option_match_id (o : Option (List Char)) :
    (match o with | some r => some r | none => none) = o := by
  cases o <;> rfl

/-- Walking `textAfterLastMarker` over characters that cannot start a marker
match just threads the word-character flag through. -/
theorem textAfterLastMarker_walk (rem : List Char) : ∀ (mid : List Char) (f : Bool),
    (∀ m ∈ mid, pyLower m ≠ 'a') →
    textAfterLastMarker f (mid ++ rem) =
      textAfterLastMarker (mid.foldl (fun _ m => isWordChar m) f) rem := by
  intro mid
  induction mid with
  | nil => intro f _; rfl
  | cons m mid2 ih =>
    intro f hall
    have hm : pyLower m ≠ 'a' := hall m (List.mem_cons_self m mid2)
    have hrw : (m :: mid2) ++ rem = m :: (mid2 ++ rem) := rfl
    rw [hrw]
    simp only [textAfterLastMarker]
    rw [marker_notA f m (mid2 ++ rem) hm, option_match_id,
      ih (isWordChar m) (fun x hx => hall x (List.mem_cons_of_mem m hx))]
    rfl

theorem foldl_word_false (l : List Char) :
    (∀ m ∈ l, isWordChar m = false) →
    l.foldl (fun _ m => isWordChar m) false = false := by
  induction l with
  | nil => intro _; rfl
  | cons m l2 ih =>
    intro hall
    rw [List.foldl_cons]
    rw [hall m (List.mem_cons_self m l2)]
    exact ih (fun x hx => hall x (List.mem_cons_of_mem m hx))

/-- No position strictly inside a marker match can start another match, so
the latest match after a match at the head lies entirely in the remainder. -/
theorem marker_interior (prev : Bool) (c : Char) (cs2 rem : List Char)
    (h : matchAnswerMarker prev (c :: cs2) = some rem) :
    textAfterLastMarker (isWordChar c) cs2 = textAfterLastMarker false rem := by
  obtain ⟨-, pre, sp1, sp2, hcs, hmap, hsp1, hsp2⟩ := marker_decomp prev (c :: cs2) rem h
  cases pre with
  | nil => simp [answerPat] at hmap
  | cons c0 pre2 =>
    rw [List.cons_append] at hcs
    have hc0 : c = c0 := by
      have := hcs
      exact (List.cons.injEq c cs2 c0 (pre2 ++ (sp1 ++ ':' :: (sp2 ++ rem))) ▸ this).1
    have hcs2 : cs2 = pre2 ++ (sp1 ++ ':' :: (sp2 ++ rem)) := by
      have := hcs
      exact (List.cons.injEq c cs2 c0 (pre2 ++ (sp1 ++ ':' :: (sp2 ++ rem))) ▸ this).2
    have hmap2 : pyLower c0 = 'a' ∧ pre2.map pyLower = ['n', 's', 'w', 'e', 'r'] := by
      rw [List.map_cons] at hmap
      unfold answerPat at hmap
      constructor
      · exact (List.cons.injEq _ _ _ _ ▸ hmap).1
      · exact (List.cons.injEq _ _ _ _ ▸ hmap).2
    have hmid : cs2 = (pre2 ++ (sp1 ++ ':' :: sp2)) ++ rem := by
      rw [hcs2]
      simp [List.append_assoc]
    have hall : ∀ m ∈ pre2 ++ (sp1 ++ ':' :: sp2), pyLower m ≠ 'a' := by
      intro m hm
      rcases List.mem_append.mp hm with hm | hm
      · have hmem : pyLower m ∈ (['n', 's', 'w', 'e', 'r'] : List Char) := by
          rw [← hmap2.2]
          exact List.mem_map_of_mem pyLower hm
        simp only [List.mem_cons, List.not_mem_nil, or_false] at hmem
        rcases hmem with h1 | h1 | h1 | h1 | h1
        all_goals (rw [h1]; decide)
      · have hm2 : m ∈ sp1 ∨ m = ':' ∨ m ∈ sp2 := by simpa using hm
        rcases hm2 with hm2 | hm2 | hm2
        · exact pyLower_ne_a_of_space m (hsp1 m hm2)
        · rw [hm2]; decide
        · exact pyLower_ne_a_of_space m (hsp2 m hm2)
    rw [hmid, textAfterLastMarker_walk rem _ (isWordChar c) hall]
    congr 1
    rw [List.foldl_append, List.foldl_append, List.foldl_cons]
    have hcolon : isWordChar ':' = false := by decide
    rw [hcolon]
    exact foldl_word_false sp2 (fun m hm => isWordChar_false_of_space m (hsp2 m hm))

/-- One-step equation of `splitMarkerFuel` (definitional). -/
theorem splitFuel_succ (fuel : Nat) (prev : Bool) (cs : List Char) :
    splitMarkerFuel (fuel + 1) prev cs =
      match matchAnswerMarker prev cs with
      | some rem => [] :: splitMarkerFuel fuel false rem
      | none =>
        match cs with
        | [] => [[]]
        | c :: cs2 => consHead c (splitMarkerFuel fuel (isWordChar c) cs2) := rfl

theorem splitFuel_nil (fuel : Nat) (prev : Bool) :
    splitMarkerFuel fuel prev [] = [[]] := by
  cases fuel with
  | zero => rfl
  | succ f => simp only [splitFuel_succ, marker_nil]

/-- Any fuel of at least the input length computes the same split. -/
theorem splitFuel_fuel_eq : ∀ (n m : Nat) (cs : List Char) (prev : Bool),
    cs.length ≤ n → cs.length ≤ m →
    splitMarkerFuel n prev cs = splitMarkerFuel m prev cs := by
  intro n
  induction n with
  | zero =>
    intro m cs prev hn _
    have hcs : cs = [] := List.length_eq_zero.mp (Nat.le_zero.mp hn)
    subst hcs
    rw [splitFuel_nil, splitFuel_nil]
  | succ n ih =>
    intro m cs prev hn hm
    cases cs with
    | nil => rw [splitFuel_nil, splitFuel_nil]
    | cons c cs2 =>
      have hm1 : ∃ m2, m = m2 + 1 := by
        cases m with
        | zero => simp at hm
        | succ m2 => exact ⟨m2, rfl⟩
      obtain ⟨m2, hm2⟩ := hm1
      subst hm2
      rw [splitFuel_succ, splitFuel_succ]
      cases hM : matchAnswerMarker prev (c :: cs2) with
      | some rem =>
        simp only [hM]
        have hlt := marker_rem_lt prev (c :: cs2) rem hM
        simp only [List.length_cons] at hn hm hlt
        congr 1
        exact ih m2 rem false (by omega) (by omega)
      | none =>
        simp only [hM]
        simp only [List.length_cons] at hn hm
        congr 1
        exact ih m2 cs2 (isWordChar c) (by omega) (by omega)

theorem splitFuel_ne_nil : ∀ (fuel : Nat) (prev : Bool) (cs : List Char),
    splitMarkerFuel fuel prev cs ≠ [] := by
  intro fuel
  induction fuel with
  | zero => intro prev cs; simp [splitMarkerFuel]
  | succ f ih =>
    intro prev cs
    rw [splitFuel_succ]
    cases hM : matchAnswerMarker prev cs with
    | some rem => simp [hM]
    | none =>
      cases cs with
      | nil => simp [hM]
      | cons c cs2 =>
        simp only [hM]
        cases hrec : splitMarkerFuel f (isWordChar c) cs2 with
        | nil => exact absurd hrec (ih (isWordChar c) cs2)
        | cons p ps => simp [consHead, hrec]

/-- Equation for `pySplitAnswerMarker` when a match starts at the head. -/
theorem pySplit_eq_some (prev : Bool) (cs rem : List Char)
    (hM : matchAnswerMarker prev cs = some rem) :
    pySplitAnswerMarker prev cs = [] :: pySplitAnswerMarker false rem := by
  have hcs : cs ≠ [] := by
    intro hx
    rw [hx, marker_nil prev] at hM
    exact absurd hM (by simp)
  obtain ⟨k, hk⟩ : ∃ k, cs.length = k + 1 := by
    cases cs with
    | nil => exact absurd rfl hcs
    | cons c cs2 => exact ⟨cs2.length, by simp⟩
  unfold pySplitAnswerMarker
  rw [hk, splitFuel_succ]
  simp only [hM]
  have hlt := marker_rem_lt prev cs rem hM
  rw [hk] at hlt
  congr 1
  exact splitFuel_fuel_eq k rem.length rem false (by omega) (by omega)

/-- Equation for `pySplitAnswerMarker` when no match starts at the head. -/
theorem pySplit_eq_none (prev : Bool) (c : Char) (cs2 : List Char)
    (hM : matchAnswerMarker prev (c :: cs2) = none) :
    pySplitAnswerMarker prev (c :: cs2) =
      consHead c (pySplitAnswerMarker (isWordChar c) cs2) := by
  unfold pySplitAnswerMarker
  rw [List.length_cons, splitFuel_succ]
  simp only [hM]

theorem pySplit_ne_nil (prev : Bool) (cs : List Char) :
    pySplitAnswerMarker prev cs ≠ [] :=
  splitFuel_ne_nil cs.length prev cs

theorem lastPart_cons_of_ne (x : List Char) (l : List (List Char)) (hl : l ≠ []) :
    lastPart (x :: l) = lastPart l := by
  cases l with
  | nil => exact absurd rfl hl
  | cons y t =>
    unfold lastPart
    rw [List.getLast?_cons_cons]

/-- The split-based last part equals the spec-side "text after the last
marker occurrence" (and the split has a single part exactly when the marker
occurs nowhere). -/
theorem splitMarker_spec : ∀ (n : Nat) (cs : List Char) (prev : Bool), cs.length ≤ n →
    (∀ r, textAfterLastMarker prev cs = some r →
        (pySplitAnswerMarker prev cs).length > 1 ∧
          lastPart (pySplitAnswerMarker prev cs) = r)
    ∧ (textAfterLastMarker prev cs = none → pySplitAnswerMarker prev cs = [cs]) := by
  intro n
  induction n with
  | zero =>
    intro cs prev hn
    have hcs : cs = [] := List.length_eq_zero.mp (Nat.le_zero.mp hn)
    subst hcs
    constructor
    · intro r hr
      exact absurd hr (by simp [textAfterLastMarker])
    · intro _
      rfl
  | succ n ih =>
    intro cs prev hn
    cases cs with
    | nil =>
      constructor
      · intro r hr
        exact absurd hr (by simp [textAfterLastMarker])
      · intro _
        rfl
    | cons c cs2 =>
      simp only [List.length_cons] at hn
      have hT : textAfterLastMarker prev (c :: cs2) =
          match textAfterLastMarker (isWordChar c) cs2 with
          | some r => some r
          | none => matchAnswerMarker prev (c :: cs2) := rfl
      cases hT2 : textAfterLastMarker (isWordChar c) cs2 with
      | some r0 =>
        have hTv : textAfterLastMarker prev (c :: cs2) = some r0 := by
          rw [hT, hT2]
        constructor
        · intro r hr
          rw [hTv] at hr
          have hr0 : r = r0 := by injection hr with h; exact h.symm
          subst hr0
          cases hM : matchAnswerMarker prev (c :: cs2) with
          | some rem =>
            have hint := marker_interior prev c cs2 rem hM
            rw [hint] at hT2
            have hlt := marker_rem_lt prev (c :: cs2) rem hM
            simp only [List.length_cons] at hlt
            obtain ⟨hlen, hlast⟩ := (ih rem false (by omega)).1 r hT2
            rw [pySplit_eq_some prev (c :: cs2) rem hM]
            constructor
            · simp only [List.length_cons]
              omega
            · rw [lastPart_cons_of_ne _ _ (pySplit_ne_nil false rem)]
              exact hlast
          | none =>
            obtain ⟨hlen, hlast⟩ := (ih cs2 (isWordChar c) (by omega)).1 r hT2
            rw [pySplit_eq_none prev c cs2 hM]
            cases hparts : pySplitAnswerMarker (isWordChar c) cs2 with
            | nil => exact absurd hparts (pySplit_ne_nil (isWordChar c) cs2)
            | cons p ps =>
              rw [hparts] at hlen hlast
              have hps : ps ≠ [] := by
                intro hx
                rw [hx] at hlen
                simp at hlen
              constructor
              · show (consHead c (p :: ps)).length > 1
                unfold consHead
                simp only [List.length_cons] at hlen ⊢
                simpa using hlen
              · show lastPart (consHead c (p :: ps)) = r
                unfold consHead
                rw [lastPart_cons_of_ne _ _ hps]
                rw [lastPart_cons_of_ne _ _ hps] at hlast
                exact hlast
        · intro hnone
          rw [hTv] at hnone
          exact absurd hnone (by simp)
      | none =>
        have hTv : textAfterLastMarker prev (c :: cs2) =
            matchAnswerMarker prev (c :: cs2) := by
          rw [hT, hT2]
        cases hM : matchAnswerMarker prev (c :: cs2) with
        | some rem =>
          constructor
          · intro r hr
            rw [hTv, hM] at hr
            have hr0 : r = rem := by injection hr with h; exact h.symm
            subst hr0
            have hint := marker_interior prev c cs2 r hM
            rw [hint] at hT2
            have hlt := marker_rem_lt prev (c :: cs2) r hM
            simp only [List.length_cons] at hlt
            have hone := (ih r false (by omega)).2 hT2
            rw [pySplit_eq_some prev (c :: cs2) r hM, hone]
            constructor
            · simp
            · rfl
          · intro hnone
            rw [hTv, hM] at hnone
            exact absurd hnone (by simp)
        | none =>
          constructor
          · intro r hr
            rw [hTv, hM] at hr
            exact absurd hr (by simp)
          · intro _
            have hone := (ih cs2 (isWordChar c) (by omega)).2 hT2
            rw [pySplit_eq_none prev c cs2 hM, hone]
            rfl

/-- C7: the marker-extraction stage of the answer post-processor.
`answer_body` (the source's `re.split(r"(?i)\banswer\s*:\s*", raw)[-1].strip()
if len(parts) > 1 else raw.strip()`) equals the stripped text after the
*last* position at which the marker matches, or the stripped whole text when
the marker occurs nowhere (`textAfterLastMarker` is the spec-side
definition); and on the specification's exemplar raw output the full
post-processor returns exactly `"The derivative is 2x."`. -/
theorem answer_marker_extraction_c7 :
    (∀ raw, answer_body raw = pyStrip ((textAfterLastMarker false raw).getD raw))
    ∧ postprocessAnswer ("Context: ... Question: ... Answer: The derivative is 2x.").data
        = "The derivative is 2x.".data := by
  constructor
  · intro raw
    cases hT : textAfterLastMarker false raw with
    | some r =>
      obtain ⟨hlen, hlast⟩ := (splitMarker_spec raw.length raw false (Nat.le_refl _)).1 r hT
      unfold answer_body
      rw [if_pos hlen, hlast]
      rfl
    | none =>
      have hone := (splitMarker_spec raw.length raw false (Nat.le_refl _)).2 hT
      unfold answer_body
      rw [hone]
      simp
  · decide

/-- C8: the fallback policy of the answer post-processor.  Whenever the
result of marker extraction, echo stripping and sentence capping
(`answerStage`) is empty or still contains the residual instructional phrase
`"if the answer is missing"` (checked case-insensitively via `lower`), the
final answer is the fixed fallback string; in particular, raw output
consisting only of the echoed system prompt yields exactly that fallback. -/
theorem answer_fallback_c8 : ∀ raw : List Char,
    (answerStage raw = [] ∨ containsSub (lowerStr (answerStage raw)) residualPhrase = true →
      postprocessAnswer raw = fallbackAnswer)
    ∧ postprocessAnswer SYSTEM_PROMPT = fallbackAnswer := by
  intro raw
  constructor
  · intro h
    unfold postprocessAnswer
    rw [if_pos h]
  · decide

theorem answer_fallback_c8_witness :
    postprocessAnswer SYSTEM_PROMPT = fallbackAnswer :=
  (answer_fallback_c8 SYSTEM_PROMPT).1 (Or.inr (by decide))

/-! ### The vector store (`VectorStoreManager` in `vector_store.py`)

Embedding vectors are produced by the external sentence-transformers model:
that model is abstracted as a parameter `embed : List Char → List Rat`
returning one vector per input text (the service contract of the spec).
The faiss `IndexFlatL2` is modeled by the list of vectors added to it
(`ntotal` = list length); its `search` output for a query is likewise
external and enters as a parameter (index/distance rows). -/

/-- Python `dict` with string keys/values, as far as this code observes it. -/
abbrev PyDict := List (List Char × List Char)

/-- Embeds `metadata.get(key, default)`. -/
def dictGet (d : PyDict) (key dflt : List Char) : List Char :=
  match d.find? (fun kv => kv.1 == key) with
  | some kv => kv.2
  | none => dflt

/-- Error kinds raised by the embedded operations
(`ValueError` = the spec's InputValidation, `RuntimeError` = NotReady,
`IndexError` = an out-of-range list subscript in `search`'s result loop). -/
inductive PyError where
  | valueError
  | runtimeError
  | indexError
deriving DecidableEq

/-- The mutable state of a `VectorStoreManager`
(`_embedder` is the external model and is not part of the observable state;
`_dimension` is only written, never read by the operations modeled here). -/
structure VectorStoreManagerState where
  embedding_model : List Char
  batch_size : Nat
  text_chunks : List (List Char)
  metadatas : List PyDict
  full_text : List Char
  index : Option (List (List Rat))

/-- Number of vectors held by the faiss index (`ntotal`), 0 when unbuilt. -/
def indexSize (st : VectorStoreManagerState) : Nat :=
  match st.index with
  | some vs => vs.length
  | none => 0

/-- Embeds `range(0, len(l), bs)` slicing of `build`'s embedding loop, fueled for
structural recursion (`fuel ≥ l.length` always suffices when `bs ≥ 1`). -/
def batchesFuel (bs : Nat) : Nat → List (List Char) → List (List (List Char))
  | 0, _ => []
  | fuel + 1, l => if bs = 0 ∨ l = [] then [] else l.take bs :: batchesFuel bs fuel (l.drop bs)

def batches (bs : Nat) (l : List (List Char)) : List (List (List Char)) :=
  batchesFuel bs l.length l

/-- Embeds `_embed_batch`: one vector per text, in order (the embedding service
contract; `astype`/normalization happen inside the external call). -/
def _embed_batch (embed : List Char → List Rat) (texts : List (List Char)) :
    List (List Rat) :=
  texts.map embed

/-- Embeds `metadatas or [{} for _ in texts]`: Python `or` takes the default both
when `metadatas` is `None` and when it is an empty (falsy) list. -/
def defaultMetadatas (texts : List (List Char)) (metadatas : Option (List PyDict)) :
    List PyDict :=
  match metadatas with
  | some m => if m = [] then texts.map (fun _ => ([] : PyDict)) else m
  | none => texts.map (fun _ => ([] : PyDict))

/-- Embeds `VectorStoreManager.build`: validate, embed in batches, `vstack` the
batch results into the index matrix, and replace the three parallel stores.
`batch_size = 0` would make Python's `range` raise `ValueError`. -/
def build (embed : List Char → List Rat) (st : VectorStoreManagerState)
    (texts : List (List Char)) (metadatas : Option (List PyDict)) :
    Except PyError VectorStoreManagerState :=
  if texts = [] then .error .valueError
  else if st.batch_size = 0 then .error .valueError
  else
    .ok { st with
      text_chunks := texts,
      metadatas := defaultMetadatas texts metadatas,
      full_text := List.intercalate [' '] texts,
      index := some (((batches st.batch_size texts).map
        (fun b => _embed_batch embed b)).flatten) }

/-- Embeds `is_ready`: an index exists and at least one chunk is stored. -/
def is_ready (st : VectorStoreManagerState) : Bool :=
  st.index.isSome && decide (st.text_chunks.length > 0)

/-- One retrieval hit (`{"text": ..., "metadata": ..., "distance": ...}`). -/
structure SearchHit where
  text : List Char
  metadata : PyDict
  distance : Rat
deriving DecidableEq

/-- Python list subscript `l[i]`: a negative index wraps to `len(l) + i`;
`none` models the `IndexError` raised when the (wrapped) index is out of
range. -/
def pyGetItem {α : Type} (l : List α) (i : Int) : Option α :=
  if 0 ≤ i then l.get? i.toNat
  else if 0 ≤ (l.length : Int) + i then l.get? ((l.length : Int) + i).toNat
  else none

/-- The result-assembly loop of `search`: skip the faiss sentinel `-1` and
rows at or beyond `len(text_chunks)`, otherwise subscript
`self.text_chunks[idx]` and `self.metadatas[idx]` -- either subscript raises
`IndexError` when out of range (a negative index other than `-1` passes the
skip guard and wraps; a metadata list shorter than the chunk list, which
`build` permits, makes `self.metadatas[idx]` raise).  `results` is the
(index, distance) row list returned by the external faiss index for the
embedded query. -/
def searchHitsLoop (st : VectorStoreManagerState) :
    List (Int × Rat) → Except PyError (List SearchHit)
  | [] => .ok []
  | r :: rest =>
    if r.1 = -1 ∨ (st.text_chunks.length : Int) ≤ r.1 then searchHitsLoop st rest
    else
      match pyGetItem st.text_chunks r.1, pyGetItem st.metadatas r.1 with
      | some t, some m => (searchHitsLoop st rest).map (fun hits => ⟨t, m, r.2⟩ :: hits)
      | _, _ => .error .indexError

/-- Embeds `VectorStoreManager.search` (the query embedding and `top_k` are
consumed by the external index call that produced `results`). -/
def search (st : VectorStoreManagerState) (results : List (Int × Rat))
    (query : List Char) (top_k : Nat) : Except PyError (List SearchHit) :=
  if is_ready st then searchHitsLoop st results else .error .runtimeError

/-- Read-only operations that may run between builds. -/
inductive QueryOp where
  | searchOp (results : List (Int × Rat)) (query : List Char) (top_k : Nat)
  | isReadyOp

/-- State transition of a read-only operation: `search` and `is_ready`
assign no attribute, so the state is returned unchanged. -/
def runQuery (st : VectorStoreManagerState) : QueryOp → VectorStoreManagerState
  | .searchOp _ _ _ => st
  | .isReadyOp => st

/-- The parallel-array invariant of the spec:
`len(chunks) == len(metadatas) == index.size`. -/
def storeInvariant (st : VectorStoreManagerState) : Prop :=
  st.text_chunks.length = st.metadatas.length ∧ st.metadatas.length = indexSize st

/-! ### The generation helpers (`generation.py`) -/

/-- Budgets from `GenerationConfig` used by the embedded operations
(temperatures, models and token budgets only parameterize the external
call). -/
structure GenerationConfig where
  max_context_chars : Nat
  max_summary_chars : Nat
  max_mcq_chars : Nat

/-- Embeds `_clean_context`: collapse whitespace, strip, truncate to `limit`. -/
def _clean_context (text : List Char) (limit : Nat) : List Char :=
  (normalizeWhitespace text).take limit

/-- The summary prompt of `generate_summary`. -/
def summaryPrompt (context : List Char) : List Char :=
  "Source material:\n".data ++ context ++
    ("\n\nProduce a concise study summary with:\n- a short overview paragraph,\n- 2-4 bullet lists grouped by major themes,\n- highlight critical formulas or definitions if present.\nKeep the tone friendly and academic.").data

/-- Embeds `generate_summary`: validate the cleaned context, then one external chat
call (`chat` abstracts `_chat_with_hf` with the summary system prompt,
temperature and token budget applied). -/
def generate_summary (chat : List Char → List Char) (corpus_text : List Char)
    (config : GenerationConfig) : Except PyError (List Char) :=
  if _clean_context corpus_text config.max_summary_chars = [] then .error .valueError
  else .ok (chat (summaryPrompt (_clean_context corpus_text config.max_summary_chars)))

/-- Python JSON values, as produced by `json.loads`. -/
inductive PyJson where
  | null
  | bool (b : Bool)
  | num (n : Int)
  | str (s : List Char)
  | arr (elems : List PyJson)
  | obj (fields : List (List Char × PyJson))

/-- The MCQ prompt of `generate_mcqs`. -/
def mcqPrompt (num_questions : Nat) (context : List Char) : List Char :=
  "Use the material below to create ".data ++ (Nat.repr num_questions).data ++
    " engineering-style MCQs.\n\nMaterial:\n".data ++ context ++
    ("\n\nReturn valid JSON with this schema:\n[\n  \x7b\n    \"question\": \"...\",\n    \"options\": [\"A) ...\", \"B) ...\", \"C) ...\", \"D) ...\"],\n    \"answer\": \"A\",\n    \"explanation\": \"1 sentence justification\"\n  \x7d\n]\nInclude varied concepts and avoid trivia.").data

/-- Embeds `generate_mcqs`: validate the cleaned context, one external chat call,
then `json.loads` under `try/except JSONDecodeError`.  `json_loads` abstracts
the stdlib parser (`none` exactly when it raises `JSONDecodeError`); a parsed
list is returned as-is together with the raw response, anything else
degrades to the empty question list plus the raw response. -/
def generate_mcqs (chat : List Char → List Char)
    (json_loads : List Char → Option PyJson) (corpus_text : List Char)
    (num_questions : Nat) (config : GenerationConfig) :
    Except PyError (List PyJson × List Char) :=
  if _clean_context corpus_text config.max_mcq_chars = [] then .error .valueError
  else
    match json_loads (chat (mcqPrompt num_questions
        (_clean_context corpus_text config.max_mcq_chars))) with
    | some (.arr elems) =>
      .ok (elems, chat (mcqPrompt num_questions
        (_clean_context corpus_text config.max_mcq_chars)))
    | _ =>
      .ok ([], chat (mcqPrompt num_questions
        (_clean_context corpus_text config.max_mcq_chars)))

/-! ### The RAG answer flow (`answer_question` in `rag.py`) -/

/-- Embeds `_format_context`: `[{source}] {text}` per hit (1-based positions for the
`chunk-i` fallback label), joined by blank lines. -/
def format_context (hits : List SearchHit) : List Char :=
  List.intercalate ("\n\n".data)
    (hits.enum.map (fun p =>
      '[' :: dictGet p.2.metadata ("source".data)
          ("chunk-".data ++ (Nat.repr (p.1 + 1)).data) ++
        "] ".data ++ p.2.text))

/-- The user prompt built by `answer_question`. -/
def ragPrompt (context question : List Char) : List Char :=
  "Context:\n".data ++ context ++ "\n\nQuestion: ".data ++ question ++
    "\nAnswer in a single short paragraph that directly addresses the question:".data

/-- Embeds `"\n".join([m["content"] for m in messages])`: the flat prompt handed to
the local text generator. -/
def fullPrompt (context question : List Char) : List Char :=
  SYSTEM_PROMPT ++ '\n' :: ragPrompt context question

/-- Embeds `AnswerResponse` from `rag.py`. -/
structure AnswerResponse where
  answer : List Char
  sources : List SearchHit
  mode : List Char
deriving DecidableEq

/-- Embeds `answer_question`: fail fast when the store is not ready; in RAG mode
retrieve hits via `self.search` (whose `IndexError`, when a subscript is out
of range, propagates to the caller) and format them, in baseline mode
shorten the full corpus text without touching the index (`shorten` abstracts
`textwrap.shorten` with the configured width); replace an empty context by
the literal `"Context is empty."`; call the external generator (`generate`
abstracts `get_text_generator(...).generate` with temperature and token
budget applied) and post-process its raw output.  `results` abstracts the
faiss rows for the embedded question as in `search`. -/
def answer_question (generate : List Char → List Char)
    (results : List (Int × Rat)) (shorten : List Char → List Char)
    (question : List Char) (st : VectorStoreManagerState) (use_rag : Bool) :
    Except PyError AnswerResponse :=
  if is_ready st then
    match (if use_rag then searchHitsLoop st results else .ok []) with
    | .error e => .error e
    | .ok hits =>
      .ok
        { answer := postprocessAnswer (generate (fullPrompt
            (if (if use_rag then format_context hits else shorten st.full_text) = []
              then ("Context is empty.".data)
              else if use_rag then format_context hits else shorten st.full_text)
            question)),
          sources := hits,
          mode := if use_rag then ("rag".data) else ("baseline".data) }
  else .error .runtimeError

/-! ### C5: the parallel-array invariant of `build` -/

theorem batchesFuel_flatten (bs : Nat) (hbs : 0 < bs) :
    ∀ (fuel : Nat) (l : List (List Char)), l.length ≤ fuel →
      (batchesFuel bs fuel l).flatten = l := by
  intro fuel
  induction fuel with
  | zero =>
    intro l hl
    have : l = [] := List.length_eq_zero.mp (Nat.le_zero.mp hl)
    subst this
    rfl
  | succ f ih =>
    intro l hl
    unfold batchesFuel
    by_cases hnil : l = []
    · rw [if_pos (Or.inr hnil), hnil]
      rfl
    · rw [if_neg (by
        intro hx
        rcases hx with hx | hx
        · omega
        · exact hnil hx)]
      rw [List.flatten_cons]
      have hlen : (l.drop bs).length ≤ f := by
        rw [List.length_drop]
        have : 0 < l.length := List.length_pos.mpr hnil
        omega
      rw [ih (l.drop bs) hlen, List.take_append_drop]

theorem flatten_map_length (embed : List Char → List Rat) :
    ∀ bl : List (List (List Char)),
      ((bl.map (fun b => _embed_batch embed b)).flatten).length = bl.flatten.length := by
  intro bl
  induction bl with
  | nil => rfl
  | cons b bl2 ih =>
    simp only [List.map_cons, List.flatten_cons, List.length_append, _embed_batch,
      List.length_map] at ih ⊢
    omega

theorem runQuery_id (st : VectorStoreManagerState) (op : QueryOp) :
    runQuery st op = st := by
  cases op <;> rfl

theorem foldl_runQuery (st : VectorStoreManagerState) :
    ∀ qs : List QueryOp, qs.foldl runQuery st = st := by
  intro qs
  induction qs with
  | nil => rfl
  | cons q qs2 ih =>
    rw [List.foldl_cons, runQuery_id, ih]

/-- C5 (amended): after a successful `build` with metadata that is omitted,
empty, or of the same length as the chunk list, the parallel-array invariant
`len(text_chunks) == len(metadatas) == index.size` holds, and it is
preserved by every subsequent read-only operation (`search`, `is_ready`
assign nothing) until the next `build`. -/
theorem build_invariant_c5 :
    ∀ (embed : List Char → List Rat) (st : VectorStoreManagerState)
      (texts : List (List Char)) (metadatas : Option (List PyDict))
      (st2 : VectorStoreManagerState),
      (metadatas = none ∨ metadatas = some [] ∨
        ∃ m, metadatas = some m ∧ m.length = texts.length) →
      build embed st texts metadatas = .ok st2 →
      storeInvariant st2 ∧ ∀ qs : List QueryOp, storeInvariant (qs.foldl runQuery st2) := by
  intro embed st texts metadatas st2 hmeta hbuild
  have hmetalen : (defaultMetadatas texts metadatas).length = texts.length := by
    unfold defaultMetadatas
    rcases hmeta with hm | hm | ⟨m, hm, hlen⟩
    · rw [hm]; simp
    · rw [hm]; simp
    · rw [hm]
      show (if m = [] then texts.map (fun _ => ([] : PyDict)) else m).length = texts.length
      by_cases hmnil : m = []
      · rw [if_pos hmnil]; simp
      · rw [if_neg hmnil]; exact hlen
  unfold build at hbuild
  by_cases htexts : texts = []
  · rw [if_pos htexts] at hbuild
    exact absurd hbuild (by simp)
  · rw [if_neg htexts] at hbuild
    by_cases hbs : st.batch_size = 0
    · rw [if_pos hbs] at hbuild
      exact absurd hbuild (by simp)
    · rw [if_neg hbs] at hbuild
      injection hbuild with h
      subst h
      have hinv : storeInvariant { st with
          text_chunks := texts,
          metadatas := defaultMetadatas texts metadatas,
          full_text := List.intercalate [' '] texts,
          index := some (((batches st.batch_size texts).map
            (fun b => _embed_batch embed b)).flatten) } := by
        unfold storeInvariant indexSize
        dsimp only
        rw [hmetalen, flatten_map_length embed (batches st.batch_size texts)]
        unfold batches
        rw [batchesFuel_flatten st.batch_size (Nat.pos_of_ne_zero hbs) texts.length texts
          (Nat.le_refl _)]
        exact ⟨rfl, rfl⟩
      exact ⟨hinv, fun qs => by rw [foldl_runQuery _ qs]; exact hinv⟩

theorem build_invariant_c5_witness :
    storeInvariant ⟨"m".data, 32, [['a']], [[]], ['a'], some [[]]⟩ :=
  (build_invariant_c5 (fun _ => []) ⟨"m".data, 32, [], [], [], none⟩ [['a']] none
    ⟨"m".data, 32, [['a']], [[]], ['a'], some [[]]⟩ (Or.inl rfl) rfl).1

/-- C5 counterexample: `build` does not validate the metadata length.
Supplying two texts with a single metadata dict succeeds and leaves
`len(text_chunks) = 2`, `len(metadatas) = 1`, `index.size = 2` -- the
invariant is broken. -/
theorem build_metadata_mismatch_c5 :
    (build (fun _ => []) ⟨"m".data, 32, [], [], [], none⟩ [['a'], ['b']]
        (some [[]])).map
        (fun st => (st.text_chunks.length, st.metadatas.length, indexSize st)) =
      .ok (2, 1, 2) ∧ (2 : Nat) ≠ 1 := by
  exact ⟨rfl, by decide⟩

/-! ### C6 and C10: the error contract and the empty-context placeholder -/

/-- C6 (amended): `build` on an empty chunk list raises `ValueError`
(InputValidation) immediately; `generate_summary` and `generate_mcqs` raise
`ValueError` when the cleaned context is empty; `search` and
`answer_question` before a successful build raise `RuntimeError` (NotReady)
immediately.  (The question is never validated: see the counterexample.) -/
theorem error_contract_c6 :
    (∀ (embed : List Char → List Rat) (st : VectorStoreManagerState)
        (metadatas : Option (List PyDict)),
      build embed st [] metadatas = .error .valueError)
    ∧ (∀ chat corpus cfg, _clean_context corpus cfg.max_summary_chars = [] →
        generate_summary chat corpus cfg = .error .valueError)
    ∧ (∀ chat loads corpus n cfg, _clean_context corpus cfg.max_mcq_chars = [] →
        generate_mcqs chat loads corpus n cfg = .error .valueError)
    ∧ (∀ st results query top_k, is_ready st = false →
        search st results query top_k = .error .runtimeError)
    ∧ (∀ gen results shorten question st use_rag, is_ready st = false →
        answer_question gen results shorten question st use_rag = .error .runtimeError) := by
  refine ⟨?_, ?_, ?_, ?_, ?_⟩
  · intro embed st metadatas
    unfold build
    rw [if_pos rfl]
  · intro chat corpus cfg h
    unfold generate_summary
    rw [if_pos h]
  · intro chat loads corpus n cfg h
    unfold generate_mcqs
    rw [if_pos h]
  · intro st results query top_k h
    unfold search
    simp [h]
  · intro gen results shorten question st use_rag h
    unfold answer_question
    simp [h]

theorem error_contract_c6_witness :
    build (fun _ => []) ⟨"m".data, 32, [], [], [], none⟩ [] none = .error .valueError
    ∧ generate_summary (fun p => p) [] ⟨6000, 4500, 5000⟩ = .error .valueError
    ∧ generate_mcqs (fun p => p) (fun _ => none) [] 5 ⟨6000, 4500, 5000⟩ =
        .error .valueError
    ∧ search ⟨"m".data, 32, [], [], [], none⟩ [] [] 5 = .error .runtimeError
    ∧ answer_question (fun p => p) [] (fun s => s) [] ⟨"m".data, 32, [], [], [], none⟩
        true = .error .runtimeError :=
  ⟨error_contract_c6.1 (fun _ => []) ⟨"m".data, 32, [], [], [], none⟩ none,
   error_contract_c6.2.1 (fun p => p) [] ⟨6000, 4500, 5000⟩ (by decide),
   error_contract_c6.2.2.1 (fun p => p) (fun _ => none) [] 5 ⟨6000, 4500, 5000⟩
     (by decide),
   error_contract_c6.2.2.2.1 ⟨"m".data, 32, [], [], [], none⟩ [] [] 5 rfl,
   error_contract_c6.2.2.2.2 (fun p => p) [] (fun s => s) []
     ⟨"m".data, 32, [], [], [], none⟩ true rfl⟩

/-- A built store with one chunk, used by the C6 counterexample and C10. -/
def readyStore : VectorStoreManagerState :=
  ⟨"m".data, 32, [['a']], [[]], ['a'], some [[]]⟩

/-- C6 counterexample: `answer_question` performs no input validation on the
question.  On a ready store, an empty question proceeds straight to
generation and succeeds -- no InputValidation error is raised. -/
theorem empty_question_no_error_c6 :
    answer_question (fun _ => "Paris.".data) [] (fun s => s) [] readyStore true =
      .ok ⟨"Paris.".data, [], "rag".data⟩ := by
  rfl

/-- On a ready store whose metadata list is shorter than its chunk list (a
state `build` permits -- see the C5 counterexample), a row index that is
valid for the chunk list makes the metadata subscript raise `IndexError`,
and the error propagates out of `answer_question`.  This is why the RAG
clause of the C10 theorem below is conditioned on the retrieval loop
succeeding. -/
theorem answer_question_index_error_example :
    answer_question (fun _ => "Ok.".data) [((1 : Int), (0 : Rat))] (fun s => s) []
        ⟨"m".data, 32, [['a'], ['b']], [[]], "a b".data, some [[], []]⟩ true =
      .error .indexError := by
  rfl

/-- C10: on a ready store, whenever the formatted context is the empty
string and the call reaches the formatting step -- in RAG mode the retrieval
loop returned successfully with hits whose formatting is empty (no retrieval
hits), in baseline mode `textwrap.shorten` of the corpus is empty (the index
is never touched) -- the literal `"Context is empty."` is substituted into
the prompt and the call proceeds to generation and post-processing instead
of raising.  The RAG clause is conditioned on the retrieval loop returning
`ok`: on a store whose metadata list is shorter than its chunk list (which
`build` permits) a row subscript can raise `IndexError` before any context
is formatted, and that error propagates out of `answer_question`. -/
theorem context_placeholder_c10 :
    ∀ (generate : List Char → List Char) (results : List (Int × Rat))
      (shorten : List Char → List Char) (question : List Char)
      (st : VectorStoreManagerState) (hits : List SearchHit),
      is_ready st = true →
      (searchHitsLoop st results = .ok hits → format_context hits = [] →
        answer_question generate results shorten question st true =
          .ok ⟨postprocessAnswer (generate
              (fullPrompt ("Context is empty.".data) question)),
            hits, "rag".data⟩)
      ∧ (shorten st.full_text = [] →
        answer_question generate results shorten question st false =
          .ok ⟨postprocessAnswer (generate
              (fullPrompt ("Context is empty.".data) question)),
            [], "baseline".data⟩) := by
  intro generate results shorten question st hits hready
  constructor
  · intro hsearch hctx
    unfold answer_question
    simp [hready, hsearch, hctx]
  · intro h
    unfold answer_question
    simp [hready, h]

theorem context_placeholder_c10_witness :
    answer_question (fun _ => "Ok.".data) [] (fun s => s) ("hi".data) readyStore true =
      .ok ⟨postprocessAnswer ((fun _ => "Ok.".data)
          (fullPrompt ("Context is empty.".data) ("hi".data))),
        [], "rag".data⟩ :=
  (context_placeholder_c10 (fun _ => "Ok.".data) [] (fun s => s) ("hi".data) readyStore
    [] rfl).1 rfl rfl

/-! ### C9: MCQ parsing never fails -/

/-- C9: once the cleaned context is non-empty, `generate_mcqs` never raises
on parsing: a response that parses to a JSON array round-trips to the same
element list alongside the raw response, and a response on which
`json.loads` raises `JSONDecodeError` (`json_loads = none`) degrades to the
empty question list plus the untouched raw response. -/
theorem generate_mcqs_parse_contract_c9 :
    ∀ (chat : List Char → List Char) (json_loads : List Char → Option PyJson)
      (corpus : List Char) (n : Nat) (cfg : GenerationConfig) (xs : List PyJson),
      _clean_context corpus cfg.max_mcq_chars ≠ [] →
      (∀ e, generate_mcqs chat json_loads corpus n cfg ≠ .error e)
      ∧ (json_loads (chat (mcqPrompt n (_clean_context corpus cfg.max_mcq_chars))) =
            some (.arr xs) →
          generate_mcqs chat json_loads corpus n cfg =
            .ok (xs, chat (mcqPrompt n (_clean_context corpus cfg.max_mcq_chars))))
      ∧ (json_loads (chat (mcqPrompt n (_clean_context corpus cfg.max_mcq_chars))) =
            none →
          generate_mcqs chat json_loads corpus n cfg =
            .ok ([], chat (mcqPrompt n (_clean_context corpus cfg.max_mcq_chars)))) := by
  intro chat json_loads corpus n cfg xs hne
  refine ⟨?_, ?_, ?_⟩
  · intro e
    unfold generate_mcqs
    rw [if_neg hne]
    cases hload : json_loads (chat (mcqPrompt n
        (_clean_context corpus cfg.max_mcq_chars))) with
    | none => simp
    | some v => cases v <;> simp
  · intro h
    unfold generate_mcqs
    rw [if_neg hne]
    simp [h]
  · intro h
    unfold generate_mcqs
    rw [if_neg hne]
    simp [h]

theorem generate_mcqs_parse_contract_c9_witness :
    generate_mcqs (fun _ => "[]".data) (fun _ => some (.arr [])) ['x'] 5
        ⟨6000, 4500, 5000⟩ = .ok ([], "[]".data) :=
  (generate_mcqs_parse_contract_c9 (fun _ => "[]".data) (fun _ => some (.arr []))
    ['x'] 5 ⟨6000, 4500, 5000⟩ [] (by decide)).2.1 rfl

end EduWeave
